import Mathlib

/-!
Shallow embedding of the proptech metric library and report assembler
(src/proptech/features.py, src/proptech/models.py, src/proptech/cli.py).

Conventions of the embedding:
* Python floats are modelled as exact rationals (ℚ); the pipeline value
  produced by value_from_cap, which can be the float +inf, is modelled by
  the two-case type PFloat below.
* Python dates are modelled as integer day indices (ℤ); subtracting two
  dates gives the day count, exactly as (d1 - d2).days does.
* Python dicts of strings are modelled as association lists
  (List (String × String)) with unique keys assumed where it matters;
  dict.get(key, default) is modelled by dictGet.
* Code that can raise (the unguarded division in
  simple_hazard_distance_score) is modelled with Option: none stands for
  the raised ZeroDivisionError.
-/

namespace Proptech

/-- Result values of the valuation pipeline: a finite Python float
(modelled as a rational) or the float +inf returned by value_from_cap
when the cap rate is nonpositive. -/
inductive PFloat where
  | fin : ℚ → PFloat
  | inf : PFloat
deriving DecidableEq, Repr

/-- Embedding of models.Unit (dataclass): id and building_id are UUIDs,
modelled as naturals; optional fields keep their optionality. -/
structure Unit where
  id : ℕ
  building_id : ℕ
  use_type : String
  nla_m2 : ℚ
  floor_no : ℤ
  bedrooms : Option ℤ
  orientation : Option String
deriving DecidableEq, Repr

/-- Embedding of models.Lease (dataclass); status is the literal string
stored in the record ("planned" | "active" | "expired" | "defaulted"),
dates are day indices. -/
structure Lease where
  id : ℕ
  unit_id : ℕ
  tenant_hash : String
  start_date : ℤ
  end_date : ℤ
  rent_monthly : ℚ
  deposit : ℚ
  status : String
deriving DecidableEq, Repr

/-- Embedding of models.TitleRecord (dataclass); encumbrance is the
string-to-string dict, modelled as an association list. -/
structure TitleRecord where
  id : ℕ
  scope : String
  scope_id : ℕ
  owner_hash : String
  deed_no : String
  encumbrance : List (String × String)
  effective_on : ℤ
deriving DecidableEq, Repr

/-- Embedding of Python dict.get(key, default) on an association list:
the value of the first matching key, else the default. -/
def dictGet (d : List (String × String)) (key dflt : String) : String :=
  match d.find? (fun kv => kv.1 == key) with
  | some kv => kv.2
  | none => dflt

/-- Embedding of Python str.lower(): lowers every character
(Char.toLower, faithful on the ASCII keys used here). -/
def strLower (s : String) : String :=
  String.mk (s.data.map Char.toLower)

/-- features.noi: NOI (annualized) = (rent + other income - opex) * 12. -/
def noi (rent_monthly_sum other_income_monthly opex_monthly : ℚ) : ℚ :=
  (rent_monthly_sum + other_income_monthly - opex_monthly) * 12

/-- features.value_from_cap: Value = NOI / CapRate, float inf when the
cap rate is nonpositive. -/
def value_from_cap (noi_annual market_cap_rate : ℚ) : PFloat :=
  if market_cap_rate ≤ 0 then PFloat.inf else PFloat.fin (noi_annual / market_cap_rate)

/-- features.ltv: LTV = loan balance / property value, 0.0 when the value
is nonpositive. -/
def ltv (current_loan_balance property_value : ℚ) : ℚ :=
  if property_value ≤ 0 then 0 else current_loan_balance / property_value

/-- features.ltv applied to a pipeline value that may be the float +inf
(as in cli.main, where the property value is the output of
value_from_cap): in Python, inf ≤ 0 is false and balance / inf is 0.0. -/
def ltvP (current_loan_balance : ℚ) : PFloat → ℚ
  | PFloat.fin v => ltv current_loan_balance v
  | PFloat.inf => 0

/-- features.rent_roll_total: sum of monthly rent over the leases whose
status is the literal string "active". -/
def rent_roll_total (active_leases : List Lease) : ℚ :=
  ((active_leases.filter (fun l => l.status == "active")).map Lease.rent_monthly).sum

/-- features.occupancy_rate: distinct unit ids occupied by an active
lease over distinct unit count; Python set comprehensions are modelled
as Finsets of ids. -/
def occupancy_rate (units : List Unit) (leases : List Lease) : ℚ :=
  let unit_ids : Finset ℕ := (units.map Unit.id).toFinset
  let occupied : Finset ℕ :=
    ((leases.filter (fun l => l.status == "active")).map Lease.unit_id).toFinset
  let denom := unit_ids.card
  if denom = 0 then 0 else ((unit_ids ∩ occupied).card : ℚ) / (denom : ℚ)

/-- features.weighted_average_life: WAL over a (date, principal) schedule;
t0 is min over the dates (Python min of a nonempty iterable, modelled by
a left fold of min over the tail starting from the head), one year is
365.25 = 1461/4 days. -/
def weighted_average_life (schedule : List (ℤ × ℚ)) : ℚ :=
  match schedule with
  | [] => 0
  | it :: its =>
    let items := it :: its
    let total_prin := (items.map Prod.snd).sum
    if total_prin ≤ 0 then 0
    else
      let t0 := (its.map Prod.fst).foldl min it.1
      (items.map (fun p => (((p.1 - t0 : ℤ) : ℚ) / (1461 / 4)) * p.2)).sum / total_prin

/-- features.simple_hazard_distance_score: 1.0 at/above the threshold,
else max(0, distance / threshold). The division is unguarded in the
source; when the threshold is 0 and the distance is below it, Python
raises ZeroDivisionError, modelled as none. -/
def simple_hazard_distance_score (distance_m threshold_m : ℚ) : Option ℚ :=
  if threshold_m ≤ distance_m then some 1
  else if threshold_m = 0 then none
  else some (max 0 (distance_m / threshold_m))

/-- features.simple_risk_parity_weights: inverse-variance weighting
normalized to 1; the dict is modelled as an association list of
(bucket, variance) pairs, preserving order. -/
def simple_risk_parity_weights (variances : List (String × ℚ)) : List (String × ℚ) :=
  let inv := variances.map (fun kv => (kv.1, if kv.2 ≤ 0 then (0 : ℚ) else 1 / kv.2))
  let total := (inv.map Prod.snd).sum
  inv.map (fun kv => (kv.1, if total = 0 then 0 else kv.2 / total))

/-- features.murabaha_equal_installments_schedule: total = cost × (1 +
markup); a single-element list of the total when months ≤ 0, else
`months` equal installments of total / months. -/
def murabaha_equal_installments_schedule (cost_price profit_markup : ℚ) (months : ℤ) :
    List ℚ :=
  let total_price := cost_price * (1 + profit_markup)
  if months ≤ 0 then [total_price]
  else List.replicate months.toNat (total_price / (months : ℚ))

/-- features.title_clean_flag_from_record: False if the record is absent,
else true iff the lowered lien_status attribute is "free" or "released". -/
def title_clean_flag_from_record (t : Option TitleRecord) : Bool :=
  match t with
  | none => false
  | some r =>
    let s := strLower (dictGet r.encumbrance "lien_status" "")
    s == "free" || s == "released"

/-- models.title_clean_flag_from_record: the identical helper defined a
second time in models.py. -/
def models_title_clean_flag_from_record (t : Option TitleRecord) : Bool :=
  match t with
  | none => false
  | some r =>
    let s := strLower (dictGet r.encumbrance "lien_status" "")
    s == "free" || s == "released"

/-- The valuation section of the report document built by cli.main
(fields of out["valuation"], lines 53-58 of cli.py). -/
structure ValuationReport where
  assumed_cap_rate : ℚ
  noi_annual : ℚ
  implied_value : PFloat
  ltv_from_input_balance : Option ℚ
deriving DecidableEq, Repr

/-- Embedding of the valuation part of cli.main (lines 33-36 and 53-58):
rent roll over the fetched leases, NOI with zero other income and zero
opex, implied value from the assumed cap rate, and LTV only when the
supplied loan balance is strictly positive. -/
def assembleValuation (leases : List Lease) (assumed_cap_rate loan_balance : ℚ) :
    ValuationReport :=
  let monthly_rent := rent_roll_total leases
  let annual_noi := noi monthly_rent 0 0
  let assumed_value := value_from_cap annual_noi assumed_cap_rate
  let current_ltv : Option ℚ :=
    if 0 < loan_balance then some (ltvP loan_balance assumed_value) else none
  { assumed_cap_rate := assumed_cap_rate
    noi_annual := annual_noi
    implied_value := assumed_value
    ltv_from_input_balance := current_ltv }

/-! Helper lemmas shared by the claim theorems. -/

/-- Summing a list after dividing every element by the same constant is the
same as dividing the sum. -/
lemma list_sum_div_const (l : List ℚ) (c : ℚ) :
    (l.map (fun x => x / c)).sum = l.sum / c := by
  induction l with
  | nil => simp
  | cons x xs ih => simp [ih, add_div]

/-- A list of nonnegative rationals with a positive member has positive sum. -/
lemma list_sum_pos_of_mem (l : List ℚ) :
    (∀ x ∈ l, 0 ≤ x) → (∃ a ∈ l, 0 < a) → 0 < l.sum := by
  induction l with
  | nil => intro _ h; simp at h
  | cons x xs ih =>
    intro hnn h
    rcases h with ⟨a, ha, hapos⟩
    rw [List.sum_cons]
    rcases List.mem_cons.mp ha with rfl | ha
    · exact add_pos_of_pos_of_nonneg hapos
        (List.sum_nonneg fun y hy => hnn y (List.mem_cons_of_mem _ hy))
    · exact add_pos_of_nonneg_of_pos (hnn x (List.mem_cons_self _ _))
        (ih (fun y hy => hnn y (List.mem_cons_of_mem _ hy)) ⟨a, ha, hapos⟩)

/-- A left fold of min over a list starting from d stays below every element
of d :: ds. -/
lemma foldl_min_le (ds : List ℤ) : ∀ d, ∀ x ∈ d :: ds, ds.foldl min d ≤ x := by
  induction ds with
  | nil =>
    intro d x hx
    rw [List.mem_singleton] at hx
    subst hx; simp
  | cons e es ih =>
    intro d x hx
    rw [List.foldl_cons]
    rcases List.mem_cons.mp hx with rfl | hx₁
    · exact le_trans (ih (min x e) _ (List.mem_cons_self _ _)) (min_le_left _ _)
    · rcases List.mem_cons.mp hx₁ with rfl | hx₂
      · exact le_trans (ih (min d x) _ (List.mem_cons_self _ _)) (min_le_right _ _)
      · exact ih (min d e) x (List.mem_cons_of_mem _ hx₂)

/-- A left fold of min over a list starting from d is an element of d :: ds. -/
lemma foldl_min_mem (ds : List ℤ) : ∀ d, ds.foldl min d ∈ d :: ds := by
  induction ds with
  | nil => intro d; simp
  | cons e es ih =>
    intro d
    rw [List.foldl_cons]
    rcases List.mem_cons.mp (ih (min d e)) with h | h
    · rcases min_choice d e with hm | hm
      · rw [h, hm]; exact List.mem_cons_self _ _
      · rw [h, hm]; exact List.mem_cons_of_mem _ (List.mem_cons_self _ _)
    · exact List.mem_cons_of_mem _ (List.mem_cons_of_mem _ h)

/-- Claim C3: value_from_cap returns the float +infinity when the market cap
rate is nonpositive, and NOI / cap rate otherwise. -/
theorem value_from_cap_spec (noi_annual market_cap_rate : ℚ) :
    (market_cap_rate ≤ 0 → value_from_cap noi_annual market_cap_rate = PFloat.inf) ∧
    (0 < market_cap_rate →
      value_from_cap noi_annual market_cap_rate =
        PFloat.fin (noi_annual / market_cap_rate)) := by
  constructor
  · intro h; simp [value_from_cap, h]
  · intro h; simp [value_from_cap, not_le.mpr h]

/-- Witness for C3 at NOI 60000 and cap rate 0.06. -/
theorem value_from_cap_spec_witness :
    (0 : ℚ) < 6 / 100 ∧ value_from_cap 60000 (6 / 100) = PFloat.fin 1000000 := by
  refine ⟨by norm_num, ?_⟩
  rw [(value_from_cap_spec 60000 (6 / 100)).2 (by norm_num)]
  norm_num

/-- Claim C4: rent_roll_total is exactly the sum of rent_monthly over the
leases whose status is the literal string "active"; every lease of any other
status contributes 0, and no other field (in particular no date window) is
consulted. -/
theorem rent_roll_total_spec (leases : List Lease) :
    rent_roll_total leases =
      (leases.map (fun l => if l.status = "active" then l.rent_monthly else 0)).sum := by
  induction leases with
  | nil => rfl
  | cons l ls ih =>
    by_cases h : l.status = "active" <;>
      simp only [rent_roll_total, List.filter_cons, beq_iff_eq, h, if_pos, if_neg,
        List.map_cons, List.sum_cons, ite_true, ite_false] <;>
      simpa [rent_roll_total, h] using ih

/-- Claim C2 counterexample: at threshold 0 with a distance strictly below
it the division in simple_hazard_distance_score is unguarded, so the call
raises ZeroDivisionError (modelled as none) instead of returning a value. -/
theorem simple_hazard_distance_score_raises_at_zero :
    simple_hazard_distance_score (-1) 0 = none := by decide

/-- Claim C2 amended: simple_hazard_distance_score raises exactly when the
threshold is 0 and the distance is negative (below the threshold); for every
other input, in particular whenever threshold_m is nonzero or distance_m is
at least the threshold, it returns a value and never raises. -/
theorem simple_hazard_distance_score_raise_iff (distance_m threshold_m : ℚ) :
    simple_hazard_distance_score distance_m threshold_m = none ↔
      threshold_m = 0 ∧ distance_m < 0 := by
  unfold simple_hazard_distance_score
  by_cases h1 : threshold_m ≤ distance_m
  · simp only [h1, if_true]
    constructor
    · intro h; simp at h
    · rintro ⟨rfl, hd⟩
      exact absurd (lt_of_lt_of_le hd h1) (lt_irrefl _)
  · simp only [h1, if_false]
    by_cases h2 : threshold_m = 0
    · subst h2
      simp [lt_of_not_le h1]
    · simp [h2]

/-- Claim C9: the report's ltv_from_input_balance field is null exactly when
the supplied loan balance is not strictly positive, and otherwise it is the
ltv of the loan balance against the implied value. -/
theorem ltv_from_input_balance_spec (leases : List Lease)
    (assumed_cap_rate loan_balance : ℚ) :
    ((assembleValuation leases assumed_cap_rate loan_balance).ltv_from_input_balance = none ↔
      ¬ 0 < loan_balance) ∧
    (0 < loan_balance →
      (assembleValuation leases assumed_cap_rate loan_balance).ltv_from_input_balance =
        some (ltvP loan_balance
          (assembleValuation leases assumed_cap_rate loan_balance).implied_value)) := by
  constructor
  · by_cases h : 0 < loan_balance <;> simp [assembleValuation, h]
  · intro h; simp [assembleValuation, h]

/-- Witness for C9 with no leases, cap rate 0.06 and loan balance 5. -/
theorem ltv_from_input_balance_spec_witness :
    (0 : ℚ) < 5 ∧
    (assembleValuation [] (6 / 100) 5).ltv_from_input_balance =
      some (ltvP 5 (assembleValuation [] (6 / 100) 5).implied_value) :=
  ⟨by norm_num, (ltv_from_input_balance_spec [] (6 / 100) 5).2 (by norm_num)⟩

/-- Claim C1: for a unit with exactly one active lease of monthly rent 5000,
zero other income and opex, and assumed cap rate 0.06, the assembled report
has annual NOI 60000 and implied value 1000000; with a supplied loan balance
of 400000 the LTV field is 0.4. -/
theorem assembler_end_to_end (l : Lease) (loan_balance : ℚ)
    (hs : l.status = "active") (hr : l.rent_monthly = 5000) :
    (assembleValuation [l] (6 / 100) loan_balance).noi_annual = 60000 ∧
    (assembleValuation [l] (6 / 100) loan_balance).implied_value = PFloat.fin 1000000 ∧
    (loan_balance = 400000 →
      (assembleValuation [l] (6 / 100) loan_balance).ltv_from_input_balance =
        some (2 / 5)) := by
  have hrent : rent_roll_total [l] = 5000 := by
    simp [rent_roll_total, List.filter_cons, hs, hr]
  have hnoi : noi (rent_roll_total [l]) 0 0 = 60000 := by
    rw [hrent]; norm_num [noi]
  have hval : value_from_cap 60000 (6 / 100) = PFloat.fin 1000000 := by
    norm_num [value_from_cap]
  refine ⟨?_, ?_, ?_⟩
  · simp [assembleValuation, hnoi]
  · simp [assembleValuation, hnoi, hval]
  · intro hb
    subst hb
    simp only [assembleValuation, hnoi, hval]
    norm_num [ltvP, ltv]

/-- Witness for C1 at a concrete active lease of rent 5000 and loan
balance 400000. -/
theorem assembler_end_to_end_witness :
    (assembleValuation [⟨10, 1, "t", 0, 0, 5000, 0, "active"⟩] (6 / 100) 400000).noi_annual
        = 60000 ∧
    (assembleValuation [⟨10, 1, "t", 0, 0, 5000, 0, "active"⟩] (6 / 100) 400000).implied_value
        = PFloat.fin 1000000 ∧
    (assembleValuation [⟨10, 1, "t", 0, 0, 5000, 0, "active"⟩] (6 / 100) 400000).ltv_from_input_balance
        = some (2 / 5) := by
  have h := assembler_end_to_end ⟨10, 1, "t", 0, 0, 5000, 0, "active"⟩ 400000 rfl rfl
  exact ⟨h.1, h.2.1, h.2.2 rfl⟩

/-- Pairs of a list zipped with its own image under f: the second component
is f of the first, and the first is a member of the list. -/
lemma zip_map_mem {α β : Type} (l : List α) (f : α → β) :
    ∀ p ∈ l.zip (l.map f), p.1 ∈ l ∧ p.2 = f p.1 := by
  induction l with
  | nil => intro p hp; simp at hp
  | cons x xs ih =>
    intro p hp
    rw [List.map_cons, List.zip_cons_cons] at hp
    rcases List.mem_cons.mp hp with rfl | hp
    · exact ⟨List.mem_cons_self _ _, rfl⟩
    · obtain ⟨h1, h2⟩ := ih p hp
      exact ⟨List.mem_cons_of_mem _ h1, h2⟩

/-- The normalizing denominator of simple_risk_parity_weights: the sum of
the per-bucket inverse variances (0 for a nonpositive variance). -/
def inverse_variance_total (variances : List (String × ℚ)) : ℚ :=
  (variances.map (fun kv => if kv.2 ≤ 0 then (0 : ℚ) else 1 / kv.2)).sum

/-- Claim C5: occupancy_rate is 0 when the distinct-unit-id set is empty,
and otherwise the number of distinct unit ids having at least one active
lease (active leases for ids outside the unit set do not count) over the
number of distinct unit ids. -/
theorem occupancy_rate_spec (units : List Unit) (leases : List Lease) :
    ((units.map Unit.id).toFinset = ∅ → occupancy_rate units leases = 0) ∧
    ((units.map Unit.id).toFinset ≠ ∅ →
      occupancy_rate units leases =
        (((units.map Unit.id).toFinset.filter
            (fun i => ∃ l ∈ leases, l.status = "active" ∧ l.unit_id = i)).card : ℚ) /
          ((units.map Unit.id).toFinset.card : ℚ)) := by
  have hUO : (units.map Unit.id).toFinset ∩
      ((leases.filter (fun l => l.status == "active")).map Lease.unit_id).toFinset =
      (units.map Unit.id).toFinset.filter
        (fun i => ∃ l ∈ leases, l.status = "active" ∧ l.unit_id = i) := by
    ext i
    simp only [Finset.mem_inter, Finset.mem_filter, List.mem_toFinset, List.mem_map,
      List.mem_filter, beq_iff_eq]
    constructor
    · rintro ⟨hu, l, ⟨hl, hs⟩, hid⟩
      exact ⟨hu, l, hl, hs, hid⟩
    · rintro ⟨hu, l, hl, hs, hid⟩
      exact ⟨hu, l, ⟨hl, hs⟩, hid⟩
  constructor
  · intro h
    simp [occupancy_rate, h]
  · intro h
    have hd : (units.map Unit.id).toFinset.card ≠ 0 := by
      simpa [Finset.card_eq_zero] using h
    simp [occupancy_rate, hd, hUO]

/-- Witness for C5: two units, one active lease covering the first. -/
theorem occupancy_rate_spec_witness :
    occupancy_rate [⟨1, 1, "r", 80, 1, none, none⟩, ⟨2, 1, "r", 80, 1, none, none⟩]
      [⟨10, 1, "t", 0, 0, 3000, 0, "active"⟩] = 1 / 2 := by
  rw [(occupancy_rate_spec
    [⟨1, 1, "r", 80, 1, none, none⟩, ⟨2, 1, "r", 80, 1, none, none⟩]
    [⟨10, 1, "t", 0, 0, 3000, 0, "active"⟩]).2 (by decide)]
  rfl

/-- Claim C6: weighted_average_life is 0 on an empty schedule or one of
nonpositive total principal, and otherwise the payment-weighted average of
years since the earliest date, a year being 365.25 days. -/
theorem weighted_average_life_spec (schedule : List (ℤ × ℚ)) :
    (schedule = [] → weighted_average_life schedule = 0) ∧
    ((schedule.map Prod.snd).sum ≤ 0 → weighted_average_life schedule = 0) ∧
    (∀ t0 : ℤ, t0 ∈ schedule.map Prod.fst →
      (∀ d ∈ schedule.map Prod.fst, t0 ≤ d) →
      0 < (schedule.map Prod.snd).sum →
      weighted_average_life schedule =
        (schedule.map (fun p => (((p.1 - t0 : ℤ) : ℚ) / (1461 / 4)) * p.2)).sum /
          (schedule.map Prod.snd).sum) := by
  refine ⟨?_, ?_, ?_⟩
  · rintro rfl; rfl
  · intro h
    cases schedule with
    | nil => rfl
    | cons it its =>
      simp only [weighted_average_life]
      rw [if_pos h]
  · intro t0 hmem hle hpos
    cases schedule with
    | nil => simp at hmem
    | cons it its =>
      have hfold : (its.map Prod.fst).foldl min it.1 = t0 := by
        apply le_antisymm
        · apply foldl_min_le
          simpa using hmem
        · apply hle
          simpa using foldl_min_mem (its.map Prod.fst) it.1
      simp only [weighted_average_life]
      rw [hfold, if_neg (not_le.mpr hpos)]

/-- Witness for C6: two payments of 100, one at the earliest date, one 365
days later. -/
theorem weighted_average_life_spec_witness :
    weighted_average_life [(0, 100), (365, 100)] = 730 / 1461 := by
  have h := (weighted_average_life_spec [(0, 100), (365, 100)]).2.2 0
    (by decide) (by decide) (by norm_num [List.map_cons, List.sum_cons])
  rw [h]
  norm_num [List.map_cons, List.sum_cons]

/-- Claim C7: the Murabaha schedule is the single total price when months
is nonpositive, and otherwise exactly `months` installments, each the total
price over months, summing exactly to the total price. -/
theorem murabaha_equal_installments_schedule_spec (cost_price profit_markup : ℚ)
    (months : ℤ) :
    (months ≤ 0 → murabaha_equal_installments_schedule cost_price profit_markup months =
      [cost_price * (1 + profit_markup)]) ∧
    (0 < months →
      ((murabaha_equal_installments_schedule cost_price profit_markup months).length : ℤ) =
        months ∧
      (∀ x ∈ murabaha_equal_installments_schedule cost_price profit_markup months,
        x = cost_price * (1 + profit_markup) / (months : ℚ)) ∧
      (murabaha_equal_installments_schedule cost_price profit_markup months).sum =
        cost_price * (1 + profit_markup)) := by
  constructor
  · intro h
    simp [murabaha_equal_installments_schedule, h]
  · intro h
    have hne : ¬ months ≤ 0 := not_le.mpr h
    have hrepl : murabaha_equal_installments_schedule cost_price profit_markup months =
        List.replicate months.toNat (cost_price * (1 + profit_markup) / (months : ℚ)) := by
      simp [murabaha_equal_installments_schedule, hne]
    have hcast : ((months.toNat : ℤ)) = months := Int.toNat_of_nonneg h.le
    refine ⟨?_, ?_, ?_⟩
    · rw [hrepl, List.length_replicate]
      exact hcast
    · intro x hx
      rw [hrepl] at hx
      exact List.eq_of_mem_replicate hx
    · have hQ : ((months.toNat : ℚ)) = (months : ℚ) := by exact_mod_cast hcast
      have hm0 : ((months : ℚ)) ≠ 0 := Int.cast_ne_zero.mpr (ne_of_gt h)
      rw [hrepl, List.sum_replicate, nsmul_eq_mul, hQ, mul_comm,
        div_mul_cancel₀ _ hm0]

/-- Witness for C7 at cost 100000, markup 0.1 and 12 months. -/
theorem murabaha_equal_installments_schedule_spec_witness :
    ((murabaha_equal_installments_schedule 100000 (1 / 10) 12).length : ℤ) = 12 ∧
    (murabaha_equal_installments_schedule 100000 (1 / 10) 12).sum = 110000 := by
  have h := (murabaha_equal_installments_schedule_spec 100000 (1 / 10) 12).2 (by norm_num)
  refine ⟨h.1, ?_⟩
  rw [h.2.2]
  norm_num

/-- Claim C8: simple_risk_parity_weights keeps the buckets, gives weight 0
to every bucket of nonpositive variance and the normalized inverse variance
to the others; the weights sum to 1 when some variance is positive, and are
all 0 when every variance is nonpositive. -/
theorem simple_risk_parity_weights_spec (variances : List (String × ℚ)) :
    ((simple_risk_parity_weights variances).map Prod.fst = variances.map Prod.fst) ∧
    (∀ p ∈ variances.zip (simple_risk_parity_weights variances),
      (p.1.2 ≤ 0 → p.2.2 = 0) ∧
      (0 < p.1.2 → p.2.2 = (1 / p.1.2) / inverse_variance_total variances)) ∧
    ((∃ kv ∈ variances, 0 < kv.2) →
      ((simple_risk_parity_weights variances).map Prod.snd).sum = 1) ∧
    ((∀ kv ∈ variances, kv.2 ≤ 0) →
      ∀ p ∈ simple_risk_parity_weights variances, p.2 = 0) := by
  have hw : simple_risk_parity_weights variances =
      variances.map (fun kv => (kv.1,
        if inverse_variance_total variances = 0 then 0
        else (if kv.2 ≤ 0 then (0 : ℚ) else 1 / kv.2) / inverse_variance_total variances)) := by
    simp [simple_risk_parity_weights, inverse_variance_total, List.map_map, Function.comp_def]
  have hnn : ∀ x ∈ variances.map (fun kv => if kv.2 ≤ 0 then (0 : ℚ) else 1 / kv.2), 0 ≤ x := by
    intro x hx
    obtain ⟨kv, _, rfl⟩ := List.mem_map.mp hx
    by_cases hv : kv.2 ≤ 0
    · simp [hv]
    · simp [hv]
      exact le_of_lt (not_le.mp hv)
  refine ⟨?_, ?_, ?_, ?_⟩
  · rw [hw, List.map_map]
    rfl
  · intro p hp
    rw [hw] at hp
    obtain ⟨hmem, hval⟩ := zip_map_mem variances _ p hp
    constructor
    · intro hle
      rw [hval]
      by_cases hT : inverse_variance_total variances = 0 <;> simp [hle, hT]
    · intro hpos
      have hT : 0 < inverse_variance_total variances := by
        apply list_sum_pos_of_mem _ hnn
        refine ⟨1 / p.1.2, ?_, one_div_pos.mpr hpos⟩
        have := List.mem_map_of_mem (fun kv : String × ℚ =>
          if kv.2 ≤ 0 then (0 : ℚ) else 1 / kv.2) hmem
        simpa [not_le.mpr hpos] using this
      rw [hval]
      simp [ne_of_gt hT, not_le.mpr hpos]
  · intro hex
    have hT : 0 < inverse_variance_total variances := by
      apply list_sum_pos_of_mem _ hnn
      obtain ⟨kv, hkv, hpos⟩ := hex
      refine ⟨1 / kv.2, ?_, one_div_pos.mpr hpos⟩
      have := List.mem_map_of_mem (fun kv : String × ℚ =>
        if kv.2 ≤ 0 then (0 : ℚ) else 1 / kv.2) hkv
      simpa [not_le.mpr hpos] using this
    rw [hw, List.map_map]
    have hcomp : (Prod.snd ∘ fun kv : String × ℚ => (kv.1,
        if inverse_variance_total variances = 0 then 0
        else (if kv.2 ≤ 0 then (0 : ℚ) else 1 / kv.2) / inverse_variance_total variances)) =
        fun kv : String × ℚ =>
          (if kv.2 ≤ 0 then (0 : ℚ) else 1 / kv.2) / inverse_variance_total variances := by
      funext kv
      simp [ne_of_gt hT]
    rw [hcomp, show (fun kv : String × ℚ =>
        (if kv.2 ≤ 0 then (0 : ℚ) else 1 / kv.2) / inverse_variance_total variances) =
        (fun x : ℚ => x / inverse_variance_total variances) ∘
          (fun kv : String × ℚ => if kv.2 ≤ 0 then (0 : ℚ) else 1 / kv.2) from rfl,
      ← List.map_map, list_sum_div_const]
    exact div_self (ne_of_gt hT)
  · intro hall p hp
    rw [hw] at hp
    obtain ⟨kv, hkv, rfl⟩ := List.mem_map.mp hp
    by_cases hT : inverse_variance_total variances = 0 <;> simp [hall kv hkv, hT]

/-- Witness for C8: two buckets of variance 1 get weights summing to 1. -/
theorem simple_risk_parity_weights_spec_witness :
    ((simple_risk_parity_weights [("a", (1 : ℚ)), ("b", 1)]).map Prod.snd).sum = 1 :=
  (simple_risk_parity_weights_spec [("a", (1 : ℚ)), ("b", 1)]).2.2.1
    ⟨("a", (1 : ℚ)), List.mem_cons_self _ _, by norm_num⟩

/-- Claim C10: both copies of title_clean_flag_from_record return false on
an absent record; on a present one they return true exactly when the lowered
lien_status attribute is "free" or "released" (a missing key gives false),
and the two definitions agree everywhere. -/
theorem title_clean_flag_from_record_spec :
    (title_clean_flag_from_record none = false) ∧
    (models_title_clean_flag_from_record none = false) ∧
    (∀ r : TitleRecord,
      (title_clean_flag_from_record (some r) = true ↔
        strLower (dictGet r.encumbrance "lien_status" "") = "free" ∨
        strLower (dictGet r.encumbrance "lien_status" "") = "released")) ∧
    (∀ r : TitleRecord,
      r.encumbrance.find? (fun kv => kv.1 == "lien_status") = none →
        title_clean_flag_from_record (some r) = false) ∧
    (∀ t : Option TitleRecord,
      models_title_clean_flag_from_record t = title_clean_flag_from_record t) := by
  refine ⟨rfl, rfl, fun r => ?_, fun r h => ?_, fun t => ?_⟩
  · simp [title_clean_flag_from_record]
  · simp only [title_clean_flag_from_record, dictGet, h]
    decide
  · cases t <;> rfl

/-- Witness for C10: a record whose lien_status is the uppercase "FREE" is
reported clean. -/
theorem title_clean_flag_from_record_spec_witness :
    title_clean_flag_from_record
      (some ⟨1, "unit", 1, "o", "d", [("lien_status", "FREE")], 0⟩) = true := by
  apply (title_clean_flag_from_record_spec.2.2.1
    ⟨1, "unit", 1, "o", "d", [("lien_status", "FREE")], 0⟩).mpr
  left
  decide

end Proptech
